import Mathlib

/-!
# Verification of the o11y-dem-cli source-map injection subsystem

Shallow embedding of `src/sourcemaps/utils.ts` and
`src/sourcemaps/index.ts` (the batch orchestrator), together with the
parts of `src/filesystem/index.ts` they rely on.

Modelling conventions:
* a JS file's content is modelled by its ordered line sequence
  (`List String`), exactly as produced by the repository's `readlines`;
* filesystem writes are modelled by a boolean flag recording whether
  `overwriteFileContents` was invoked, paired with the line sequence the
  write would produce;
* JavaScript strings are modelled by Lean `String`, with the string
  operations the source uses (`startsWith`, `slice`, `trim`, `endsWith`)
  implemented on the underlying character lists;
* `node:path` posix semantics (`isAbsolute`, `dirname`, `join`) are
  embedded following Node's implementation;
* the SHA-256 digest used by `computeSourceMapId` is embedded in full,
  on byte lists, with 32-bit words as `Nat` reduced mod 2^32.
-/

namespace O11y

/-! ## Character-list string primitives (JS string operations) -/

/-- JS `line.startsWith(mark)` on character lists: `mark` is a prefix of `l`. -/
def strStarts : List Char → List Char → Bool
  | [], _ => true
  | _ :: _, [] => false
  | c :: cs, d :: ds => c == d && strStarts cs ds

/-- JS `String.prototype.startsWith`. -/
def lineStartsWith (line mark : String) : Bool :=
  strStarts mark.data line.data

/-- JS `String.prototype.endsWith` (used to model the end-anchored regexes). -/
def strEndsWith (s t : String) : Bool :=
  strStarts t.data.reverse s.data.reverse

/-- JS `s.slice(n)`: drop the first `n` characters. -/
def strDropChars (s : String) (n : Nat) : String :=
  ⟨s.data.drop n⟩

/-- JS `String.prototype.trim`: strip whitespace from both ends. -/
def strTrim (s : String) : String :=
  ⟨((s.data.dropWhile Char.isWhitespace).reverse.dropWhile Char.isWhitespace).reverse⟩

/-- Split a string at every slash (the segment scan of Node's
`normalizeString`). -/
def splitOnSlashAux : List Char → List Char → List String
  | [], acc => [⟨acc.reverse⟩]
  | c :: rest, acc =>
    if c = '/' then ⟨acc.reverse⟩ :: splitOnSlashAux rest []
    else splitOnSlashAux rest (c :: acc)

/-- The slash-separated segments of a path. -/
def splitOnSlash (s : String) : List String :=
  splitOnSlashAux s.data []

/-! ## Constants from `src/sourcemaps/utils.ts` -/

/-- Source constant `SOURCE_MAPPING_URL_COMMENT_PREFIX`. -/
def sourceMappingUrlComment : String := "//# sourceMappingURL="

/-- Source constant `SNIPPET_PREFIX` (renamed here): the fixed literal that
marks an injected snippet line. -/
def snippetMark : String := ";/* olly sourcemaps inject */"

/-- The text of `SNIPPET_TEMPLATE` between `SNIPPET_PREFIX` and the unique
occurrence of `__SOURCE_MAP_ID_PLACEHOLDER__`.
(Braces of the JavaScript text are written with `\x7b`/`\x7d` escapes.) -/
def snippetBodyPre : String :=
  "if (typeof window === 'object') \x7b window.sourceMapIds = window.sourceMapIds || \x7b\x7d; let s = ''; try \x7b throw new Error(); \x7d catch (e) \x7b s = (e.stack.match(/https?:\\/\\/[^\\s]+?(?::\\d+)?(?=:[\\d]+:[\\d]+)/) || [])[0]; \x7d if (s) \x7bwindow.sourceMapIds[s] = '"

/-- Source constant `SNIPPET_TEMPLATE`, split at the unique occurrence of
`__SOURCE_MAP_ID_PLACEHOLDER__`: the part before the placeholder. -/
def snippetTemplatePre : String :=
  snippetMark ++ snippetBodyPre

/-- The part of `SNIPPET_TEMPLATE` after the placeholder. -/
def snippetTemplatePost : String := "';\x7d\x7d;"

/-- Source `getCodeSnippet`: `SNIPPET_TEMPLATE.replace('__SOURCE_MAP_ID_PLACEHOLDER__', sourceMapId)`;
the placeholder occurs exactly once in the template, so the replacement is the
concatenation of the literal part before it, the id, and the literal part after it. -/
def getCodeSnippet (sourceMapId : String) : String :=
  snippetTemplatePre ++ sourceMapId ++ snippetTemplatePost

/-- `line.startsWith(SOURCE_MAPPING_URL_COMMENT_PREFIX)` in the source. -/
def isSourceMappingUrlLine (line : String) : Bool :=
  lineStartsWith line sourceMappingUrlComment

/-- `line.startsWith(SNIPPET_PREFIX)` in the source. -/
def isSnippetLine (line : String) : Bool :=
  lineStartsWith line snippetMark

/-! ## The injector (`injectFile` in `src/sourcemaps/utils.ts`)

The read loop keeps three trackers: `sourceMappingUrlIndex` and
`existingSnippetIndex` start at `-1` and are overwritten on every matching
line (there is no `break`), and `existingSnippet` holds the text of the
matching snippet line. The loop is a left fold over the lines with the
running line index as the fourth component. -/

/-- One iteration of `injectFile`'s `for await (const line of readlines(...))` loop.
State: (`sourceMappingUrlIndex`, `existingSnippetIndex`, `existingSnippet`, `readlinesIndex`). -/
def injectScanStep (acc : Int × Int × String × Nat) (line : String) : Int × Int × String × Nat :=
  let smu := if isSourceMappingUrlLine line then (acc.2.2.2 : Int) else acc.1
  let esi := if isSnippetLine line then (acc.2.2.2 : Int) else acc.2.1
  let es := if isSnippetLine line then line else acc.2.2.1
  (smu, esi, es, acc.2.2.2 + 1)

/-- The whole read loop of `injectFile`. -/
def injectScan (lines : List String) : Int × Int × String × Nat :=
  lines.foldl injectScanStep (-1, -1, "", 0)

/-- JS `lines.splice(i, 1, s)`: replace the element at index `i` by `s`. -/
def spliceReplaceOne (lines : List String) (i : Nat) (s : String) : List String :=
  lines.take i ++ [s] ++ lines.drop (i + 1)

/-- JS `lines.splice(i, 0, s)`: insert `s` immediately before index `i`. -/
def spliceInsertAt (lines : List String) (i : Nat) (s : String) : List String :=
  lines.take i ++ [s] ++ lines.drop i

/-- Source `injectFile(jsFilePath, sourceMapId, dryRun)`, on the file's line
sequence. Returns the line sequence the file holds afterwards, paired with
whether `overwriteFileContents` was invoked (`true` exactly when the file is
rewritten). -/
def injectFile (lines : List String) (sourceMapId : String) (dryRun : Bool) :
    List String × Bool :=
  if dryRun then
    (lines, false)
  else
    let scan := injectScan lines
    let sourceMappingUrlIndex := scan.1
    let existingSnippetIndex := scan.2.1
    let existingSnippet := scan.2.2.1
    let snippet := getCodeSnippet sourceMapId
    if existingSnippet = snippet then
      (lines, false)
    else if 0 ≤ existingSnippetIndex then
      (spliceReplaceOne lines existingSnippetIndex.toNat snippet, true)
    else if 0 ≤ sourceMappingUrlIndex then
      (spliceInsertAt lines sourceMappingUrlIndex.toNat snippet, true)
    else
      (lines ++ [snippet], true)

/-! ## `node:path` posix semantics (`isAbsolute`, `dirname`, `join`)

Embedded following Node's posix implementation; only these three entry
points are used by the source. -/

/-- Node posix `path.isAbsolute`: nonempty and starting with a slash. -/
def posixIsAbsolute (p : String) : Bool :=
  match p.data with
  | '/' :: _ => true
  | _ => false

/-- Backward scan of Node posix `dirname`: walk the characters from index
`len - 1` down to index `1` (the list argument is the reversed character
list restricted to that range), skipping trailing slashes, and return the
index of the slash that ends the directory part, if any. -/
def dirnameBackScan : List Char → Nat → Bool → Option Nat
  | [], _, _ => none
  | c :: rest, i, matchedSlash =>
    if c = '/' then
      if matchedSlash then dirnameBackScan rest (i - 1) true else some i
    else
      dirnameBackScan rest (i - 1) false

/-- Node posix `path.dirname`. -/
def posixDirname (p : String) : String :=
  match p.data with
  | [] => "."
  | c0 :: rest =>
    let hasRoot := c0 = '/'
    match dirnameBackScan rest.reverse (p.data.length - 1) true with
    | none => if hasRoot then "/" else "."
    | some e => if hasRoot ∧ e = 1 then "//" else ⟨p.data.take e⟩

/-- Segment resolution of Node posix `normalizeString`: process the
slash-separated segments left to right against a reversed stack `acc`;
empty and `.` segments are dropped, `..` pops a poppable segment, stays as
`..` when `allowAboveRoot` (relative paths), and is dropped otherwise. -/
def normSegs (allowAboveRoot : Bool) : List String → List String → List String
  | acc, [] => acc
  | acc, seg :: rest =>
    if seg = "" ∨ seg = "." then
      normSegs allowAboveRoot acc rest
    else if seg = ".." then
      match acc with
      | top :: accRest =>
        if top ≠ ".." then normSegs allowAboveRoot accRest rest
        else normSegs allowAboveRoot (".." :: acc) rest
      | [] =>
        if allowAboveRoot then normSegs allowAboveRoot [".."] rest
        else normSegs allowAboveRoot [] rest
    else
      normSegs allowAboveRoot (seg :: acc) rest

/-- Node posix `path.normalize`. -/
def posixNormalize (p : String) : String :=
  if p = "" then "."
  else
    let isAbs := posixIsAbsolute p
    let trailingSep := strEndsWith p "/"
    let core := String.intercalate "/" ((normSegs (!isAbs) [] (splitOnSlash p)).reverse)
    let core := if core = "" ∧ ¬ isAbs then "." else core
    let core := if core ≠ "" ∧ trailingSep then core ++ "/" else core
    if isAbs then "/" ++ core else core

/-- Node posix `path.join` restricted to two arguments (the arity the source
uses): concatenate the nonempty parts with a slash and normalize. -/
def posixJoin (a b : String) : String :=
  let parts := [a, b].filter (fun s => s ≠ "")
  if parts = [] then "." else posixNormalize (String.intercalate "/" parts)

/-! ## Discovery (`discoverJsMapFilePath` in `src/sourcemaps/utils.ts`)

The JS file is read lazily only in the directive fallback; the model takes
the file's line sequence as an argument. The source loop breaks at the
first line matching the directive marker, which is `List.find?`. -/

/-- Source `discoverJsMapFilePath(jsFilePath, allJsMapFilePaths)`;
`jsLines` is the line sequence of the JS file at `jsFilePath`. -/
def discoverJsMapFilePath (jsFilePath : String) (allJsMapFilePaths : List String)
    (jsLines : List String) : Option String :=
  if allJsMapFilePaths.contains (jsFilePath ++ ".map") then
    some (jsFilePath ++ ".map")
  else
    match jsLines.find? (fun line => isSourceMappingUrlLine line) with
    | none => none
    | some line =>
      let url := strTrim (strDropChars line sourceMappingUrlComment.length)
      if posixIsAbsolute url
          || lineStartsWith url "http://"
          || lineStartsWith url "https://"
          || lineStartsWith url "data:" then
        none
      else
        let matchingJsMapFilePath := posixJoin (posixDirname jsFilePath) url
        if allJsMapFilePaths.contains matchingJsMapFilePath then
          some matchingJsMapFilePath
        else
          none

/-! ## File classifiers (`isJsFilePath`, `isJsMapFilePath`) -/

/-- Source `isJsFilePath`: the regex `\.(js|cjs|mjs)$` matches exactly the
strings ending in `.js`, `.cjs` or `.mjs`. -/
def isJsFilePath (filePath : String) : Bool :=
  strEndsWith filePath ".js" || strEndsWith filePath ".cjs" || strEndsWith filePath ".mjs"

/-- Source `isJsMapFilePath`: the regex `\.(js|cjs|mjs)\.map$`. -/
def isJsMapFilePath (filePath : String) : Bool :=
  strEndsWith filePath ".js.map" || strEndsWith filePath ".cjs.map" || strEndsWith filePath ".mjs.map"

/-! ## Batch orchestrator (`runSourcemapInject` in `src/sourcemaps/index.ts`)

The orchestrator's observable behaviour relevant here is the sequence of
log events it emits and the accumulating `injectedJsFilePaths` list. The
directory enumeration is modelled by its successful result `filePaths`;
the content of each JS file is supplied by `fileLines`. -/

/-- The log messages `runSourcemapInject` emits (file-level debug output of
the injector aside). -/
inductive InjectLogEvent where
  /-- `Found N JavaScript file(s) in DIR` -/
  | foundSummary : Nat → InjectLogEvent
  /-- `No source map was detected for PATH.  Skipping injection.` -/
  | skipNoMap : String → InjectLogEvent
  /-- `Finished source map injection for N JavaScript file(s) in DIR` -/
  | injectedSummary : Nat → InjectLogEvent
  /-- `No JavaScript files were found.  Verify that DIR is the correct directory ...` -/
  | warnWrongDirectory : InjectLogEvent
  /-- `No JavaScript files were injected.  Verify that your build is configured to generate source maps ...` -/
  | warnMissingSourceMaps : InjectLogEvent
  deriving DecidableEq

/-- The body of the orchestrator's `for (const jsFilePath of jsFilePaths)`
loop: on a `null` discovery, log a skip and `continue`; otherwise inject and
append the path to `injectedJsFilePaths`. -/
def orchestratorStep (jsMapFilePaths : List String) (fileLines : String → List String)
    (acc : List InjectLogEvent × List String) (jsFilePath : String) :
    List InjectLogEvent × List String :=
  match discoverJsMapFilePath jsFilePath jsMapFilePaths (fileLines jsFilePath) with
  | none => (acc.1 ++ [InjectLogEvent.skipNoMap jsFilePath], acc.2)
  | some _ => (acc.1, acc.2 ++ [jsFilePath])

/-- Source `runSourcemapInject(options)` after a successful directory
enumeration yielding `filePaths`. Returns the emitted log events and the
`injectedJsFilePaths` list. -/
def runSourcemapInject (filePaths : List String) (fileLines : String → List String) :
    List InjectLogEvent × List String :=
  let jsFilePaths := filePaths.filter (fun p => isJsFilePath p)
  let jsMapFilePaths := filePaths.filter (fun p => isJsMapFilePath p)
  let r := jsFilePaths.foldl (orchestratorStep jsMapFilePaths fileLines)
    ([InjectLogEvent.foundSummary jsFilePaths.length], [])
  let events := r.1 ++ [InjectLogEvent.injectedSummary r.2.length]
  let events :=
    if jsFilePaths.length = 0 then events ++ [InjectLogEvent.warnWrongDirectory]
    else if r.2.length = 0 then events ++ [InjectLogEvent.warnMissingSourceMaps]
    else events
  (events, r.2)

/-! ## SHA-256 and `computeSourceMapId`

`computeSourceMapId` hashes the map file's bytes with SHA-256, takes the
lowercase hex digest, and regroups its first 32 characters as a GUID-shaped
token (`shaToSourceMapId`). The digest is embedded here in full. -/

/-- 32-bit truncated addition. -/
def add32 (a b : Nat) : Nat := (a + b) % 4294967296

/-- Rotate a 32-bit word right by `n` bits. -/
def rotr32 (n x : Nat) : Nat := x / 2 ^ n + x % 2 ^ n * 2 ^ (32 - n)

/-- SHA-256 small sigma 0. -/
def ssig0 (x : Nat) : Nat := (rotr32 7 x) ^^^ (rotr32 18 x) ^^^ (x / 2 ^ 3)

/-- SHA-256 small sigma 1. -/
def ssig1 (x : Nat) : Nat := (rotr32 17 x) ^^^ (rotr32 19 x) ^^^ (x / 2 ^ 10)

/-- SHA-256 big sigma 0. -/
def bsig0 (x : Nat) : Nat := (rotr32 2 x) ^^^ (rotr32 13 x) ^^^ (rotr32 22 x)

/-- SHA-256 big sigma 1. -/
def bsig1 (x : Nat) : Nat := (rotr32 6 x) ^^^ (rotr32 11 x) ^^^ (rotr32 25 x)

/-- SHA-256 choice function. -/
def sha256Ch (e f g : Nat) : Nat := (e &&& f) ^^^ ((e ^^^ 4294967295) &&& g)

/-- SHA-256 majority function. -/
def sha256Maj (a b c : Nat) : Nat := (a &&& b) ^^^ (a &&& c) ^^^ (b &&& c)

/-- The 64 SHA-256 round constants. -/
def sha256K : List Nat :=
  [1116352408, 1899447441, 3049323471, 3921009573,
   961987163, 1508970993, 2453635748, 2870763221,
   3624381080, 310598401, 607225278, 1426881987,
   1925078388, 2162078206, 2614888103, 3248222580,
   3835390401, 4022224774, 264347078, 604807628,
   770255983, 1249150122, 1555081692, 1996064986,
   2554220882, 2821834349, 2952996808, 3210313671,
   3336571891, 3584528711, 113926993, 338241895,
   666307205, 773529912, 1294757372, 1396182291,
   1695183700, 1986661051, 2177026350, 2456956037,
   2730485921, 2820302411, 3259730800, 3345764771,
   3516065817, 3600352804, 4094571909, 275423344,
   430227734, 506948616, 659060556, 883997877,
   958139571, 1322822218, 1537002063, 1747873779,
   1955562222, 2024104815, 2227730452, 2361852424,
   2428436474, 2756734187, 3204031479, 3329325298]

/-- The SHA-256 initial hash value. -/
def sha256H0 : Nat × Nat × Nat × Nat × Nat × Nat × Nat × Nat :=
  (1779033703, 3144134277, 1013904242, 2773480762,
   1359893119, 2600822924, 528734635, 1541459225)

/-- SHA-256 message padding on a byte list: append `0x80`, zero bytes up to
56 mod 64, then the bit length as 8 big-endian bytes. -/
def sha256Pad (msg : List Nat) : List Nat :=
  let l := msg.length
  let zeros := (119 - l % 64) % 64
  let bitLen := l * 8
  msg ++ [128] ++ List.replicate zeros 0 ++
    [bitLen / 2 ^ 56 % 256, bitLen / 2 ^ 48 % 256, bitLen / 2 ^ 40 % 256,
     bitLen / 2 ^ 32 % 256, bitLen / 2 ^ 24 % 256, bitLen / 2 ^ 16 % 256,
     bitLen / 2 ^ 8 % 256, bitLen % 256]

/-- Group a byte list into 32-bit big-endian words. -/
def bytesToWords : List Nat → List Nat
  | b0 :: b1 :: b2 :: b3 :: rest =>
    (((b0 * 256 + b1) * 256 + b2) * 256 + b3) :: bytesToWords rest
  | _ => []

/-- Extend the 16 message words to 64 (the `fuel` argument counts the words
still to append). -/
def sha256Extend (w : List Nat) : Nat → List Nat
  | 0 => w
  | fuel + 1 =>
    let n := w.length
    let next := (ssig1 (w.getD (n - 2) 0) + w.getD (n - 7) 0 +
      ssig0 (w.getD (n - 15) 0) + w.getD (n - 16) 0) % 4294967296
    sha256Extend (w ++ [next]) fuel

/-- One SHA-256 compression round; the list holds the remaining
(scheduled word, round constant) pairs. -/
def sha256Rounds :
    List (Nat × Nat) → Nat × Nat × Nat × Nat × Nat × Nat × Nat × Nat →
    Nat × Nat × Nat × Nat × Nat × Nat × Nat × Nat
  | [], st => st
  | (w, k) :: rest, (a, b, c, d, e, f, g, h) =>
    let t1 := (h + bsig1 e + sha256Ch e f g + k + w) % 4294967296
    let t2 := (bsig0 a + sha256Maj a b c) % 4294967296
    sha256Rounds rest ((t1 + t2) % 4294967296, a, b, c, (d + t1) % 4294967296, e, f, g)

/-- Process one 64-byte block. -/
def sha256Block (block : List Nat) (h : Nat × Nat × Nat × Nat × Nat × Nat × Nat × Nat) :
    Nat × Nat × Nat × Nat × Nat × Nat × Nat × Nat :=
  let w := sha256Extend (bytesToWords block) 48
  let (a, b, c, d, e, f, g, hh) := sha256Rounds (w.zip sha256K) h
  (add32 a h.1, add32 b h.2.1, add32 c h.2.2.1, add32 d h.2.2.2.1,
   add32 e h.2.2.2.2.1, add32 f h.2.2.2.2.2.1, add32 g h.2.2.2.2.2.2.1,
   add32 hh h.2.2.2.2.2.2.2)

/-- Split a byte list into 64-byte blocks; the structural `fuel` bounds the
number of blocks (any `fuel ≥ l.length` chunks the whole list). -/
def toBlocksFuel : Nat → List Nat → List (List Nat)
  | 0, _ => []
  | _, [] => []
  | fuel + 1, b :: rest => (b :: rest).take 64 :: toBlocksFuel fuel ((b :: rest).drop 64)

/-- Split a (padded) byte list into 64-byte blocks. -/
def toBlocks (l : List Nat) : List (List Nat) :=
  toBlocksFuel l.length l

/-- Lowercase hex digit. -/
def hexDigit (n : Nat) : Char :=
  if n < 10 then Char.ofNat (48 + n) else Char.ofNat (87 + n)

/-- A 32-bit word as 8 lowercase hex characters. -/
def wordToHex (x : Nat) : List Char :=
  [hexDigit (x / 2 ^ 28 % 16), hexDigit (x / 2 ^ 24 % 16),
   hexDigit (x / 2 ^ 20 % 16), hexDigit (x / 2 ^ 16 % 16),
   hexDigit (x / 2 ^ 12 % 16), hexDigit (x / 2 ^ 8 % 16),
   hexDigit (x / 2 ^ 4 % 16), hexDigit (x % 16)]

/-- The SHA-256 digest of a byte list, as the 64-character lowercase hex
string Node's `hash.digest('hex')` produces. -/
def sha256Hex (msg : List Nat) : String :=
  let hs := (toBlocks (sha256Pad msg)).foldl (fun h block => sha256Block block h) sha256H0
  ⟨wordToHex hs.1 ++ wordToHex hs.2.1 ++ wordToHex hs.2.2.1 ++ wordToHex hs.2.2.2.1 ++
   wordToHex hs.2.2.2.2.1 ++ wordToHex hs.2.2.2.2.2.1 ++ wordToHex hs.2.2.2.2.2.2.1 ++
   wordToHex hs.2.2.2.2.2.2.2⟩

/-- JS `s.slice(a, b)` for `0 ≤ a ≤ b` within range. -/
def strSlice (s : String) (a b : Nat) : String :=
  ⟨(s.data.drop a).take (b - a)⟩

/-- Source `shaToSourceMapId(sha)`: the five hex-digest slices
`[0,8) [8,12) [12,16) [16,20) [20,32)` joined by hyphens
(`[...].join('-')` written out). -/
def shaToSourceMapId (sha : String) : String :=
  strSlice sha 0 8 ++ "-" ++ strSlice sha 8 12 ++ "-" ++ strSlice sha 12 16 ++ "-" ++
    strSlice sha 16 20 ++ "-" ++ strSlice sha 20 32

/-- Source `computeSourceMapId(sourceMapFilePath)`, on the map file's bytes:
the hex SHA-256 digest of the streamed content, regrouped by
`shaToSourceMapId`. -/
def computeSourceMapId (mapFileBytes : List Nat) : String :=
  shaToSourceMapId (sha256Hex mapFileBytes)

/-- The bytes of an ASCII string (the test vector's content). -/
def strBytes (s : String) : List Nat :=
  s.data.map Char.toNat

/-! ## Supporting lemmas -/

theorem strStarts_append_self (m r : List Char) : strStarts m (m ++ r) = true := by
  induction m with
  | nil => rfl
  | cons c cs ih => simp [strStarts, ih]

theorem strStarts_head {c : Char} {cs l : List Char} (h : strStarts (c :: cs) l = true) :
    l.head? = some c := by
  cases l with
  | nil => simp [strStarts] at h
  | cons d ds =>
    simp only [strStarts, Bool.and_eq_true, beq_iff_eq] at h
    simp [h.1]

theorem data_getCodeSnippet (id : String) :
    (getCodeSnippet id).data = snippetTemplatePre.data ++ id.data ++ snippetTemplatePost.data := by
  simp [getCodeSnippet, String.data_append]

theorem isSnippetLine_getCodeSnippet (id : String) :
    isSnippetLine (getCodeSnippet id) = true := by
  have hpre : snippetTemplatePre.data = snippetMark.data ++ snippetBodyPre.data :=
    String.data_append snippetMark snippetBodyPre
  rw [isSnippetLine, lineStartsWith, data_getCodeSnippet, hpre]
  rw [List.append_assoc, List.append_assoc]
  exact strStarts_append_self _ _

theorem getCodeSnippet_ne_empty (id : String) : getCodeSnippet id ≠ "" := by
  intro h
  have hd : (getCodeSnippet id).data = [] := by rw [h]
  rw [data_getCodeSnippet] at hd
  simp only [List.append_eq_nil] at hd
  have hpost : snippetTemplatePost.data ≠ [] := by decide
  exact hpost hd.2

/-- The index and content of the last line satisfying `p`, if any: the
functional reading of a loop that overwrites its trackers on every match. -/
def lastHit (p : String → Bool) : List String → Option (Nat × String)
  | [] => none
  | l :: ls =>
    match lastHit p ls with
    | some (j, s) => some (j + 1, s)
    | none => if p l then some (0, l) else none

theorem lastHit_eq_none_iff (p : String → Bool) (lines : List String) :
    lastHit p lines = none ↔ ∀ l ∈ lines, p l = false := by
  induction lines with
  | nil => simp [lastHit]
  | cons a t ih =>
    cases h : lastHit p t with
    | some v =>
      obtain ⟨j, s⟩ := v
      constructor
      · intro hc
        rw [lastHit, h] at hc
        exact absurd hc (by simp)
      · intro hall
        have hnone := ih.mpr fun l hl => hall l (List.mem_cons_of_mem a hl)
        rw [hnone] at h
        exact absurd h (by simp)
    | none =>
      simp only [lastHit, h]
      constructor
      · intro hc
        intro l hl
        rcases List.mem_cons.mp hl with rfl | hl
        · cases hpl : p l with
          | false => rfl
          | true => simp [hpl] at hc
        · exact (ih.mp h) l hl
      · intro hall
        simp [hall a (List.mem_cons_self a t)]

theorem lastHit_some_spec (p : String → Bool) (lines : List String) (j : Nat) (s : String)
    (h : lastHit p lines = some (j, s)) :
    ∃ hj : j < lines.length,
      lines.get ⟨j, hj⟩ = s ∧ p s = true ∧ ∀ l ∈ lines.drop (j + 1), p l = false := by
  induction lines generalizing j with
  | nil => simp [lastHit] at h
  | cons a t ih =>
    cases ht : lastHit p t with
    | some v =>
      obtain ⟨j', s'⟩ := v
      simp only [lastHit, ht, Option.some.injEq, Prod.mk.injEq] at h
      obtain ⟨hj, hs⟩ := h
      subst hs
      obtain ⟨hlt, hget, hp, hclean⟩ := ih j' ht
      subst hj
      refine ⟨by simp only [List.length_cons]; omega, ?_, hp, ?_⟩
      · simpa using hget
      · simpa using hclean
    | none =>
      simp only [lastHit, ht] at h
      cases hpa : p a with
      | true =>
        simp only [hpa, if_true, Option.some.injEq, Prod.mk.injEq] at h
        obtain ⟨hj, hs⟩ := h
        subst hj
        subst hs
        refine ⟨by simp, by simp, hpa, ?_⟩
        simpa using (lastHit_eq_none_iff p t).mp ht
      | false => simp [hpa] at h

theorem lastHit_append_last (p : String → Bool) (xs ys : List String) (s : String)
    (hs : p s = true) (hys : ∀ y ∈ ys, p y = false) :
    lastHit p (xs ++ s :: ys) = some (xs.length, s) := by
  induction xs with
  | nil =>
    have : lastHit p ys = none := (lastHit_eq_none_iff p ys).mpr hys
    simp [lastHit, this, hs]
  | cons a t ih =>
    rw [List.cons_append,
      show lastHit p (a :: (t ++ s :: ys)) =
        (match lastHit p (t ++ s :: ys) with
         | some (j, s') => some (j + 1, s')
         | none => if p a then some (0, a) else none) from rfl,
      ih]
    simp [List.length_cons]

/-- The read loop of `injectFile`, characterized: starting from trackers
`(smu, esi, es)` at line index `i`, the fold ends with each tracker holding
the last match, if any. -/
theorem injectScan_foldl_eq (lines : List String) (smu esi : Int) (es : String) (i : Nat) :
    lines.foldl injectScanStep (smu, esi, es, i) =
      ((match lastHit isSourceMappingUrlLine lines with
        | some (j, _) => ((i + j : Nat) : Int)
        | none => smu),
       (match lastHit isSnippetLine lines with
        | some (j, _) => ((i + j : Nat) : Int)
        | none => esi),
       (match lastHit isSnippetLine lines with
        | some (_, s) => s
        | none => es),
       i + lines.length) := by
  induction lines generalizing smu esi es i with
  | nil => simp [lastHit]
  | cons a t ih =>
    rw [List.foldl_cons, show injectScanStep (smu, esi, es, i) a =
      ((if isSourceMappingUrlLine a then (i : Int) else smu),
       (if isSnippetLine a then (i : Int) else esi),
       (if isSnippetLine a then a else es), i + 1) from rfl, ih]
    rcases h1 : lastHit isSourceMappingUrlLine t with _ | ⟨j1, s1⟩ <;>
      rcases h2 : lastHit isSnippetLine t with _ | ⟨j2, s2⟩ <;>
      cases hpa : isSourceMappingUrlLine a <;>
      cases hpb : isSnippetLine a <;>
      simp only [lastHit, h1, h2, hpa, hpb, Bool.false_eq_true, if_true, if_false,
        reduceIte, List.length_cons, Prod.mk.injEq] <;>
      refine ⟨?_, ?_, ?_, ?_⟩ <;>
      first
        | rfl
        | trivial
        | (congr 1; omega)
        | omega

theorem splice_middle_cons (l : List String) (i : Nat) (s : String) :
    l.take i ++ [s] ++ l.drop i = l.take i ++ s :: l.drop i := by
  simp

theorem spliceReplaceOne_eq_cons (l : List String) (i : Nat) (s : String) :
    spliceReplaceOne l i s = l.take i ++ s :: l.drop (i + 1) := by
  simp [spliceReplaceOne]

theorem spliceInsertAt_eq_cons (l : List String) (i : Nat) (s : String) :
    spliceInsertAt l i s = l.take i ++ s :: l.drop i := by
  simp [spliceInsertAt]

/-- `injectFile` (with `dryRun` off), characterized through `lastHit`: the
decision structure of the source, with the `-1` sentinel trackers resolved. -/
theorem injectFile_characterize (lines : List String) (id : String) :
    injectFile lines id false =
      match lastHit isSnippetLine lines with
      | some (j, es) =>
        if es = getCodeSnippet id then (lines, false)
        else (spliceReplaceOne lines j (getCodeSnippet id), true)
      | none =>
        match lastHit isSourceMappingUrlLine lines with
        | some (d, _) => (spliceInsertAt lines d (getCodeSnippet id), true)
        | none => (lines ++ [getCodeSnippet id], true) := by
  rw [injectFile]
  simp only [Bool.false_eq_true, if_false, injectScan, injectScan_foldl_eq]
  cases hsn : lastHit isSnippetLine lines with
  | some v =>
    obtain ⟨j, es⟩ := v
    cases hsm : lastHit isSourceMappingUrlLine lines with
    | some w =>
      obtain ⟨d, sd⟩ := w
      by_cases heq : es = getCodeSnippet id <;>
        simp [heq, Int.toNat_natCast]
    | none =>
      by_cases heq : es = getCodeSnippet id <;>
        simp [heq, Int.toNat_natCast]
  | none =>
    have hne : ¬ ("" = getCodeSnippet id) := fun hh => getCodeSnippet_ne_empty id hh.symm
    cases hsm : lastHit isSourceMappingUrlLine lines with
    | some w =>
      obtain ⟨d, sd⟩ := w
      simp [hne, Int.toNat_natCast]
    | none =>
      simp [hne]

theorem injectFile_eq_of_snippet {lines : List String} {j : Nat} {es : String} (id : String)
    (hsn : lastHit isSnippetLine lines = some (j, es)) :
    injectFile lines id false =
      if es = getCodeSnippet id then (lines, false)
      else (spliceReplaceOne lines j (getCodeSnippet id), true) := by
  rw [injectFile_characterize lines id, hsn]

theorem injectFile_eq_of_directive {lines : List String} {d : Nat} {sd : String} (id : String)
    (hsn : lastHit isSnippetLine lines = none)
    (hsm : lastHit isSourceMappingUrlLine lines = some (d, sd)) :
    injectFile lines id false = (spliceInsertAt lines d (getCodeSnippet id), true) := by
  rw [injectFile_characterize lines id, hsn, hsm]

theorem injectFile_eq_append {lines : List String} (id : String)
    (hsn : lastHit isSnippetLine lines = none)
    (hsm : lastHit isSourceMappingUrlLine lines = none) :
    injectFile lines id false = (lines ++ [getCodeSnippet id], true) := by
  rw [injectFile_characterize lines id, hsn, hsm]

/-- C1: the injector is idempotent at the level of the file's line sequence:
a second run with the same id rewrites nothing and performs no write. -/
theorem claim_C1_injector_idempotent (lines : List String) (id : String) :
    injectFile (injectFile lines id false).1 id false = ((injectFile lines id false).1, false) := by
  have hsnip : isSnippetLine (getCodeSnippet id) = true := isSnippetLine_getCodeSnippet id
  cases hsn : lastHit isSnippetLine lines with
  | some v =>
    obtain ⟨j, es⟩ := v
    have h1 := injectFile_eq_of_snippet id hsn
    by_cases heq : es = getCodeSnippet id
    · rw [if_pos heq] at h1
      rw [h1]
      exact (injectFile_eq_of_snippet id hsn).trans (if_pos heq)
    · rw [if_neg heq] at h1
      rw [h1]
      obtain ⟨hj, hget, hp, hclean⟩ := lastHit_some_spec _ _ _ _ hsn
      have hout : lastHit isSnippetLine (spliceReplaceOne lines j (getCodeSnippet id)) =
          some (j, getCodeSnippet id) := by
        rw [spliceReplaceOne_eq_cons]
        have hlast := lastHit_append_last isSnippetLine (lines.take j) (lines.drop (j + 1))
          (getCodeSnippet id) hsnip hclean
        rwa [List.length_take, Nat.min_eq_left (Nat.le_of_lt hj)] at hlast
      exact (injectFile_eq_of_snippet id hout).trans (if_pos rfl)
  | none =>
    have hallclean : ∀ l ∈ lines, isSnippetLine l = false :=
      (lastHit_eq_none_iff _ _).mp hsn
    cases hsm : lastHit isSourceMappingUrlLine lines with
    | some w =>
      obtain ⟨d, sd⟩ := w
      have h1 := injectFile_eq_of_directive id hsn hsm
      rw [h1]
      obtain ⟨hd, -, -, -⟩ := lastHit_some_spec _ _ _ _ hsm
      have hout : lastHit isSnippetLine (spliceInsertAt lines d (getCodeSnippet id)) =
          some (d, getCodeSnippet id) := by
        rw [spliceInsertAt_eq_cons]
        have hysclean : ∀ l ∈ lines.drop d, isSnippetLine l = false :=
          fun l hl => hallclean l (List.mem_of_mem_drop hl)
        have hlast := lastHit_append_last isSnippetLine (lines.take d) (lines.drop d)
          (getCodeSnippet id) hsnip hysclean
        rwa [List.length_take, Nat.min_eq_left (Nat.le_of_lt hd)] at hlast
      exact (injectFile_eq_of_snippet id hout).trans (if_pos rfl)
    | none =>
      have h1 := injectFile_eq_append id hsn hsm
      rw [h1]
      have hout : lastHit isSnippetLine (lines ++ [getCodeSnippet id]) =
          some (lines.length, getCodeSnippet id) :=
        lastHit_append_last isSnippetLine lines [] (getCodeSnippet id) hsnip (by simp)
      exact (injectFile_eq_of_snippet id hout).trans (if_pos rfl)

set_option maxRecDepth 8192 in
/-- C2, counterexample: in a snippet-free file with two map-pointer directive
lines, the injector inserts the snippet immediately before the LAST directive
line, not the first: the scan in `injectFile` overwrites
`sourceMappingUrlIndex` on every matching line without breaking. -/
theorem claim_C2_counterexample :
    (injectFile ["//# sourceMappingURL=a.js.map", "x", "//# sourceMappingURL=b.js.map"]
        "647366e7-d3db-6cf4-8693-2c321c377d5a" false).1 =
      ["//# sourceMappingURL=a.js.map", "x",
       getCodeSnippet "647366e7-d3db-6cf4-8693-2c321c377d5a",
       "//# sourceMappingURL=b.js.map"] ∧
    (injectFile ["//# sourceMappingURL=a.js.map", "x", "//# sourceMappingURL=b.js.map"]
        "647366e7-d3db-6cf4-8693-2c321c377d5a" false).1 ≠
      [getCodeSnippet "647366e7-d3db-6cf4-8693-2c321c377d5a",
       "//# sourceMappingURL=a.js.map", "x", "//# sourceMappingURL=b.js.map"] := by
  constructor
  · decide
  · decide

/-- C2, amended: the scan of `injectFile` notes the index of the LAST line
starting with the map-pointer directive marker (and the LAST line starting
with the snippet marker); consequently, in a file with directive lines and
no existing snippet, the new snippet is inserted immediately before the last
directive line. -/
theorem claim_C2_amended_insert_before_last_directive
    (lines : List String) (id : String) (d : Nat) (dl : String)
    (hclean : ∀ l ∈ lines, isSnippetLine l = false)
    (hdir : lastHit isSourceMappingUrlLine lines = some (d, dl)) :
    (injectScan lines).1 = (d : Int) ∧
    injectFile lines id false = (spliceInsertAt lines d (getCodeSnippet id), true) := by
  have hsn : lastHit isSnippetLine lines = none := (lastHit_eq_none_iff _ _).mpr hclean
  constructor
  · rw [injectScan, injectScan_foldl_eq, hdir]
    simp
  · exact injectFile_eq_of_directive id hsn hdir

/-- Witness for the amended C2 at the two-directive input. -/
theorem claim_C2_amended_witness :
    (injectScan ["//# sourceMappingURL=a.js.map", "x", "//# sourceMappingURL=b.js.map"]).1 = (2 : Int) ∧
    injectFile ["//# sourceMappingURL=a.js.map", "x", "//# sourceMappingURL=b.js.map"]
        "647366e7-d3db-6cf4-8693-2c321c377d5a" false =
      (spliceInsertAt ["//# sourceMappingURL=a.js.map", "x", "//# sourceMappingURL=b.js.map"] 2
        (getCodeSnippet "647366e7-d3db-6cf4-8693-2c321c377d5a"), true) :=
  claim_C2_amended_insert_before_last_directive _ _ 2 "//# sourceMappingURL=b.js.map"
    (by decide) (by decide)

/-- C7: snippet placement. When the new snippet does not already occur in the
file, the injector replaces the last existing snippet line in place if one
exists, else inserts the snippet immediately before the noted directive line,
else appends it as the final line; every other line keeps its content and
relative position. -/
theorem claim_C7_snippet_placement (lines : List String) (id : String)
    (h : getCodeSnippet id ∉ lines) :
    injectFile lines id false =
      (match lastHit isSnippetLine lines with
       | some (j, _) => (spliceReplaceOne lines j (getCodeSnippet id), true)
       | none =>
         match lastHit isSourceMappingUrlLine lines with
         | some (d, _) => (spliceInsertAt lines d (getCodeSnippet id), true)
         | none => (lines ++ [getCodeSnippet id], true)) := by
  cases hsn : lastHit isSnippetLine lines with
  | some v =>
    obtain ⟨j, es⟩ := v
    have hnes : ¬ (es = getCodeSnippet id) := by
      obtain ⟨hj, hget, -, -⟩ := lastHit_some_spec _ _ _ _ hsn
      intro he
      exact h (he ▸ hget ▸ List.get_mem lines j hj)
    rw [injectFile_eq_of_snippet id hsn, if_neg hnes]
  | none =>
    cases hsm : lastHit isSourceMappingUrlLine lines with
    | some w =>
      obtain ⟨d, sd⟩ := w
      rw [injectFile_eq_of_directive id hsn hsm]
    | none =>
      rw [injectFile_eq_append id hsn hsm]

set_option maxRecDepth 8192 in
/-- Witness for C7 at the repository's replace-in-place test input. -/
theorem claim_C7_witness :
    injectFile ["line 1", "line 2", getCodeSnippet "88888888-8888-8888-8888-888888888888",
        "//# sourceMappingURL=file.js.map"] "647366e7-d3db-6cf4-8693-2c321c377d5a" false =
      (spliceReplaceOne
        ["line 1", "line 2", getCodeSnippet "88888888-8888-8888-8888-888888888888",
         "//# sourceMappingURL=file.js.map"] 2
        (getCodeSnippet "647366e7-d3db-6cf4-8693-2c321c377d5a"), true) :=
  claim_C7_snippet_placement _ _ (by decide)

/-- C8: with `dryRun` set, `injectFile` performs no filesystem write and
leaves the file content untouched, whatever the file holds. -/
theorem claim_C8_dry_run_no_writes (lines : List String) (id : String) :
    injectFile lines id true = (lines, false) := rfl

/-- C3: convention-first precedence: when `jsFilePath + ".map"` is in the
known map set, Discovery returns it at once, whatever the JS file contains
(the result does not depend on the file's lines, which are never read). -/
theorem claim_C3_convention_first (jsFilePath : String) (allJsMapFilePaths : List String)
    (h : (jsFilePath ++ ".map") ∈ allJsMapFilePaths) :
    ∀ jsLines : List String,
      discoverJsMapFilePath jsFilePath allJsMapFilePaths jsLines = some (jsFilePath ++ ".map") := by
  intro jsLines
  have hc : allJsMapFilePaths.contains (jsFilePath ++ ".map") = true := List.elem_iff.mpr h
  rw [discoverJsMapFilePath, if_pos hc]

/-- Witness for C3: the convention match wins even over a differing directive. -/
theorem claim_C3_witness :
    discoverJsMapFilePath "path/to/file.js" ["path/to/file.js.map"]
        ["//# sourceMappingURL=other/file.js.map"] = some "path/to/file.js.map" :=
  claim_C3_convention_first "path/to/file.js" ["path/to/file.js.map"] (by decide)
    ["//# sourceMappingURL=other/file.js.map"]

/-- C4: Discovery only ever returns members of the provided known-map-file
set; in particular a relative directive value resolving outside the set
(the repository's escape test input) yields `none`. -/
theorem claim_C4_discovery_membership :
    (∀ (jsFilePath : String) (allJsMapFilePaths : List String) (jsLines : List String)
        (p : String),
      discoverJsMapFilePath jsFilePath allJsMapFilePaths jsLines = some p →
        p ∈ allJsMapFilePaths) ∧
    discoverJsMapFilePath "path/to/file.js" ["path/to/mappings/file.js.map"]
        ["//# sourceMappingURL=../../../some/other/folder/file.js.map"] = none := by
  constructor
  · intro js maps jsLines p h
    rw [discoverJsMapFilePath] at h
    by_cases hc : maps.contains (js ++ ".map") = true
    · rw [if_pos hc] at h
      obtain rfl : js ++ ".map" = p := Option.some.inj h
      exact List.elem_iff.mp hc
    · rw [if_neg hc] at h
      cases hf : jsLines.find? (fun line => isSourceMappingUrlLine line) with
      | none => rw [hf] at h; exact absurd h (by simp)
      | some line =>
        rw [hf] at h
        simp only at h
        by_cases hb : (posixIsAbsolute (strTrim (strDropChars line sourceMappingUrlComment.length))
            || lineStartsWith (strTrim (strDropChars line sourceMappingUrlComment.length)) "http://"
            || lineStartsWith (strTrim (strDropChars line sourceMappingUrlComment.length)) "https://"
            || lineStartsWith (strTrim (strDropChars line sourceMappingUrlComment.length)) "data:") = true
        · rw [if_pos hb] at h; exact absurd h (by simp)
        · rw [if_neg hb] at h
          by_cases hm : maps.contains
              (posixJoin (posixDirname js) (strTrim (strDropChars line sourceMappingUrlComment.length))) = true
          · rw [if_pos hm] at h
            obtain rfl := Option.some.inj h
            exact List.elem_iff.mp hm
          · rw [if_neg hm] at h; exact absurd h (by simp)
  · decide

/-- Witness for C4's membership part at the convention-match input. -/
theorem claim_C4_witness :
    "path/to/file.js.map" ∈ ["path/to/file.js.map"] :=
  claim_C4_discovery_membership.1 "path/to/file.js" ["path/to/file.js.map"] [] _ (by decide)

/-- C5, counterexample: the claim fails as stated — with the convention match
`a.js.map` present in the known set, Discovery returns it without ever
examining the boundary directive, even though the file's first (and only)
directive line carries an `http://` value. -/
theorem claim_C5_counterexample :
    (["//# sourceMappingURL=http://www.splunk.com/dist/file.js.map"].find?
        (fun line => isSourceMappingUrlLine line) =
      some "//# sourceMappingURL=http://www.splunk.com/dist/file.js.map") ∧
    lineStartsWith (strTrim (strDropChars "//# sourceMappingURL=http://www.splunk.com/dist/file.js.map"
        sourceMappingUrlComment.length)) "http://" = true ∧
    discoverJsMapFilePath "a.js" ["a.js.map"]
        ["//# sourceMappingURL=http://www.splunk.com/dist/file.js.map"] = some "a.js.map" := by
  refine ⟨by decide, by decide, by decide⟩

/-- C5, amended: provided the convention match `jsFilePath + ".map"` is NOT in
the known set (so the directive fallback is reached), a first directive line
whose trimmed value is an absolute path or starts with `http://`, `https://`
or `data:` makes Discovery return `none`, whatever else the set contains. -/
theorem claim_C5_amended_boundary_rejection (jsFilePath : String)
    (allJsMapFilePaths : List String) (jsLines : List String) (line : String)
    (hconv : (jsFilePath ++ ".map") ∉ allJsMapFilePaths)
    (hfind : jsLines.find? (fun l => isSourceMappingUrlLine l) = some line)
    (hb : (posixIsAbsolute (strTrim (strDropChars line sourceMappingUrlComment.length))
        || lineStartsWith (strTrim (strDropChars line sourceMappingUrlComment.length)) "http://"
        || lineStartsWith (strTrim (strDropChars line sourceMappingUrlComment.length)) "https://"
        || lineStartsWith (strTrim (strDropChars line sourceMappingUrlComment.length)) "data:") = true) :
    discoverJsMapFilePath jsFilePath allJsMapFilePaths jsLines = none := by
  have hc : allJsMapFilePaths.contains (jsFilePath ++ ".map") = false :=
    Bool.eq_false_iff.mpr fun hcc => hconv (List.elem_iff.mp hcc)
  rw [discoverJsMapFilePath, if_neg (by rw [hc]; exact Bool.false_ne_true), hfind]
  simp only
  rw [if_pos hb]

/-- Witness for the amended C5 at the repository's `https` test input. -/
theorem claim_C5_amended_witness :
    discoverJsMapFilePath "path/to/file.js" ["path/to/mappings/file.js.map"]
        ["//# sourceMappingURL=https://www.splunk.com/dist/file.js.map"] = none :=
  claim_C5_amended_boundary_rejection "path/to/file.js" ["path/to/mappings/file.js.map"]
    ["//# sourceMappingURL=https://www.splunk.com/dist/file.js.map"]
    "//# sourceMappingURL=https://www.splunk.com/dist/file.js.map"
    (by decide) (by decide) (by decide)

/-- The spec's reading of the id shape: take the FIRST 32 hexadecimal
characters of the digest and regroup them as 8-4-4-4-12, joined by
hyphens. Stated separately from `shaToSourceMapId` (which slices the full
digest) so the two can be compared. -/
def guidFromDigest (hex : String) : String :=
  ⟨(hex.data.take 32).take 8⟩ ++ "-" ++ ⟨((hex.data.take 32).drop 8).take 4⟩ ++ "-" ++
    ⟨((hex.data.take 32).drop 12).take 4⟩ ++ "-" ++ ⟨((hex.data.take 32).drop 16).take 4⟩ ++
    "-" ++ ⟨((hex.data.take 32).drop 20).take 12⟩

theorem sha256Hex_data_length (msg : List Nat) : (sha256Hex msg).data.length = 64 := by
  rw [sha256Hex]
  simp [wordToHex]

/-- C6: `computeSourceMapId` returns the first 32 hex characters of the
content's SHA-256 digest regrouped 8-4-4-4-12 with hyphens — a 36-character
token — and on the bytes `"line 1\nline 2\n"` it returns exactly
`90605548-63a6-2b9d-b5f7-26216876654e`. -/
theorem claim_C6_source_map_id :
    (∀ bytes : List Nat, computeSourceMapId bytes = guidFromDigest (sha256Hex bytes)) ∧
    (∀ bytes : List Nat, (computeSourceMapId bytes).length = 36) ∧
    computeSourceMapId (strBytes "line 1\nline 2\n") = "90605548-63a6-2b9d-b5f7-26216876654e" := by
  refine ⟨?_, ?_, by decide⟩
  · intro bytes
    rw [computeSourceMapId]
    generalize sha256Hex bytes = s
    rw [shaToSourceMapId, guidFromDigest]
    simp only [strSlice, List.take_take, List.drop_take, List.drop_zero, Nat.sub_self]
    norm_num
  · intro bytes
    have h64 := sha256Hex_data_length bytes
    rw [computeSourceMapId, shaToSourceMapId]
    show (_ : String).data.length = 36
    simp only [String.data_append, List.length_append, strSlice, List.length_take,
      List.length_drop, h64]
    norm_num

theorem orchestrator_foldl_spec (jsMapFilePaths : List String)
    (fileLines : String → List String) (js : List String)
    (evs : List InjectLogEvent) (inj : List String) :
    js.foldl (orchestratorStep jsMapFilePaths fileLines) (evs, inj) =
      (evs ++ (js.filter
          (fun p => (discoverJsMapFilePath p jsMapFilePaths (fileLines p)).isNone)).map
            InjectLogEvent.skipNoMap,
       inj ++ js.filter
          (fun p => (discoverJsMapFilePath p jsMapFilePaths (fileLines p)).isSome)) := by
  induction js generalizing evs inj with
  | nil => simp
  | cons a t ih =>
    rw [List.foldl_cons]
    cases hd : discoverJsMapFilePath a jsMapFilePaths (fileLines a) with
    | none =>
      rw [show orchestratorStep jsMapFilePaths fileLines (evs, inj) a =
          (evs ++ [InjectLogEvent.skipNoMap a], inj) by
        rw [orchestratorStep, hd]]
      rw [ih]
      simp [List.filter_cons, hd]
    | some m =>
      rw [show orchestratorStep jsMapFilePaths fileLines (evs, inj) a =
          (evs, inj ++ [a]) by
        rw [orchestratorStep, hd]]
      rw [ih]
      simp [List.filter_cons, hd]

/-- C9: the batch orchestrator, after a successful enumeration: it injects
exactly the JS files whose discovery succeeds and skips (with a log line, not
an error) exactly those whose discovery returns none; it reports the found
and injected counts; it warns about a possibly wrong directory exactly when
no JS file was found, and about missing source maps exactly when JS files
were found but none was injected. -/
theorem claim_C9_batch_summary (filePaths : List String)
    (fileLines : String → List String) :
    (runSourcemapInject filePaths fileLines).2 =
      (filePaths.filter (fun p => isJsFilePath p)).filter
        (fun p => (discoverJsMapFilePath p
          (filePaths.filter (fun q => isJsMapFilePath q)) (fileLines p)).isSome) ∧
    InjectLogEvent.foundSummary (filePaths.filter (fun p => isJsFilePath p)).length ∈
      (runSourcemapInject filePaths fileLines).1 ∧
    InjectLogEvent.injectedSummary (runSourcemapInject filePaths fileLines).2.length ∈
      (runSourcemapInject filePaths fileLines).1 ∧
    (InjectLogEvent.warnWrongDirectory ∈ (runSourcemapInject filePaths fileLines).1 ↔
      (filePaths.filter (fun p => isJsFilePath p)).length = 0) ∧
    (InjectLogEvent.warnMissingSourceMaps ∈ (runSourcemapInject filePaths fileLines).1 ↔
      ((filePaths.filter (fun p => isJsFilePath p)).length ≠ 0 ∧
        (runSourcemapInject filePaths fileLines).2.length = 0)) ∧
    (∀ p : String, InjectLogEvent.skipNoMap p ∈ (runSourcemapInject filePaths fileLines).1 ↔
      (p ∈ filePaths.filter (fun q => isJsFilePath q) ∧
        discoverJsMapFilePath p
          (filePaths.filter (fun q => isJsMapFilePath q)) (fileLines p) = none)) := by
  rw [runSourcemapInject]
  simp only [orchestrator_foldl_spec, List.nil_append]
  set js := filePaths.filter (fun p => isJsFilePath p) with hjs
  set maps := filePaths.filter (fun q => isJsMapFilePath q) with hmaps
  set skips := (js.filter
    (fun p => (discoverJsMapFilePath p maps (fileLines p)).isNone)).map
      InjectLogEvent.skipNoMap with hskips
  set inj := js.filter (fun p => (discoverJsMapFilePath p maps (fileLines p)).isSome)
    with hinj
  refine ⟨by first | rfl | trivial, ?_, ?_, ?_, ?_, ?_⟩
  · by_cases h0 : js.length = 0 <;>
      by_cases h1 : inj.length = 0 <;>
      simp [h0, h1]
  · by_cases h0 : js.length = 0 <;>
      by_cases h1 : inj.length = 0 <;>
      simp [h0, h1]
  · constructor
    · intro hmem
      by_cases h0 : js.length = 0
      · exact h0
      · exfalso
        by_cases h1 : inj.length = 0 <;>
          simp [h0, h1, hskips] at hmem
    · intro h0
      simp [h0]
  · constructor
    · intro hmem
      by_cases h0 : js.length = 0
      · exfalso
        simp [h0, hskips] at hmem
      · by_cases h1 : inj.length = 0
        · exact ⟨h0, h1⟩
        · exfalso
          simp [h0, h1, hskips] at hmem
    · intro ⟨h0, h1⟩
      simp [h0, h1]
  · intro p
    have hcore : InjectLogEvent.skipNoMap p ∈ skips ↔
        (p ∈ js ∧ discoverJsMapFilePath p maps (fileLines p) = none) := by
      rw [hskips]
      constructor
      · intro hm
        obtain ⟨q, hq, hqe⟩ := List.mem_map.mp hm
        obtain rfl : q = p := by
          injection hqe
        obtain ⟨hqjs, hqnone⟩ := List.mem_filter.mp hq
        exact ⟨hqjs, Option.isNone_iff_eq_none.mp hqnone⟩
      · intro ⟨hpjs, hpnone⟩
        exact List.mem_map.mpr ⟨p,
          List.mem_filter.mpr ⟨hpjs, Option.isNone_iff_eq_none.mpr hpnone⟩, rfl⟩
    by_cases h0 : js.length = 0 <;>
      by_cases h1 : inj.length = 0 <;>
      simp only [h0, h1, if_true, if_false, ne_eq, not_true_eq_false, not_false_eq_true,
        reduceIte] <;>
      simp [hcore]

/-- C10: the JS-file and map-file classifiers are disjoint: no path satisfies
both, a path classified as a map file is never classified as a JS file (in
particular `*.js.map` is not a JS file), and the orchestrator's partition of
an enumeration never assigns a path to both classes. -/
theorem claim_C10_classifier_disjoint :
    (∀ p : String, (isJsFilePath p && isJsMapFilePath p) = false) ∧
    (∀ p : String, isJsMapFilePath p = true → isJsFilePath p = false) ∧
    (∀ filePaths : List String,
      filePaths.filter (fun p => isJsFilePath p && isJsMapFilePath p) = []) := by
  have hhead : ∀ (p t : String) (c : Char), t.data.reverse.head? = some c →
      strEndsWith p t = true → p.data.reverse.head? = some c := by
    intro p t c hh he
    rw [strEndsWith] at he
    cases ht : t.data.reverse with
    | nil => rw [ht] at hh; exact absurd hh (by simp)
    | cons c' cs =>
      rw [ht] at he hh
      have := strStarts_head he
      simp only [List.head?] at hh
      obtain rfl : c' = c := Option.some.inj hh
      exact this
  have core : ∀ p : String, isJsMapFilePath p = true → isJsFilePath p = false := by
    intro p hmap
    cases hjs : isJsFilePath p with
    | false => rfl
    | true =>
      exfalso
      have hs : p.data.reverse.head? = some 's' := by
        rw [isJsFilePath] at hjs
        rcases Bool.or_eq_true _ _ |>.mp hjs with hor | h3
        · rcases Bool.or_eq_true _ _ |>.mp hor with h1 | h2
          · exact hhead p ".js" 's' (by decide) h1
          · exact hhead p ".cjs" 's' (by decide) h2
        · exact hhead p ".mjs" 's' (by decide) h3
      have hp : p.data.reverse.head? = some 'p' := by
        rw [isJsMapFilePath] at hmap
        rcases Bool.or_eq_true _ _ |>.mp hmap with hor | h3
        · rcases Bool.or_eq_true _ _ |>.mp hor with h1 | h2
          · exact hhead p ".js.map" 'p' (by decide) h1
          · exact hhead p ".cjs.map" 'p' (by decide) h2
        · exact hhead p ".mjs.map" 'p' (by decide) h3
      rw [hs] at hp
      exact absurd (Option.some.inj hp) (by decide)
  have part1 : ∀ p : String, (isJsFilePath p && isJsMapFilePath p) = false := by
    intro p
    cases hm : isJsMapFilePath p with
    | false => simp [hm]
    | true => simp [core p hm]
  exact ⟨part1, core, fun filePaths =>
    List.filter_eq_nil_iff.mpr fun a _ => by simp [part1 a]⟩

/-- Witness for C10's second component at a `.js.map` path. -/
theorem claim_C10_witness :
    isJsMapFilePath "dist/main.js.map" = true ∧ isJsFilePath "dist/main.js.map" = false :=
  ⟨by decide, claim_C10_classifier_disjoint.2.1 "dist/main.js.map" (by decide)⟩

end O11y
